import Mathlib

/-
Verification of the de_exercise pipeline (src/main.py) against its
natural-language specification.

The pipeline operates on pandas DataFrames whose rows carry four semantic
columns (name, address, city, zip).  We embed a table as a `List Row`,
where every cell is a `Cell`: a Python string (modelled as `List Char`),
a number (modelled as `Int`; float-specific behaviour is outside the
claims), or a missing value (`Cell.na`, pandas NaN).

Conventions of the embedding, noted where they matter:
* String operations model Python semantics at the code-point level;
  case mapping and character classes are modelled on their ASCII part
  (`lowerChar`, `isSpaceChar`, `isWordChar`).
* Fallible pandas operations return `Except PyError`.
* `clean_data` mutates its argument in place up to the lowercase step
  (rename/fillna use inplace=True, and the str-column assignment writes
  into the caller's object); `cleanDataFull` therefore returns both the
  function result and the caller-visible final state of the argument.
-/

namespace DeExercise

/-- Cell of a table: a Python string, a number, or a missing value (NaN). -/
inductive Cell where
  | str (s : List Char)
  | num (n : Int)
  | na
deriving DecidableEq, Repr

/-- Row of a raw or normalized table: the four positional columns that
main.py renames to name/address/city/zip.  (Columns beyond the fourth are
passed through untouched by the code and are not modelled.) -/
structure Row where
  name : Cell
  address : Cell
  city : Cell
  zip : Cell
deriving DecidableEq, Repr

/-- Errors the embedded pandas operations can raise. -/
inductive PyError where
  | attributeError
  | integrityError
  | valueError
deriving DecidableEq, Repr

/-- ASCII model of Python str.lower (main.py line 174 applies x.lower()):
code points 65-90 are shifted to 97-122, everything else is unchanged. -/
def lowerChar (c : Char) : Char :=
  if 65 ≤ c.toNat ∧ c.toNat ≤ 90 then Char.ofNat (c.toNat + 32) else c

def lowerStr (s : List Char) : List Char := s.map lowerChar

/-- Python whitespace for str.strip and for the regex class \s
(space, tab, newline, carriage return, vertical tab, form feed). -/
def isSpaceChar (c : Char) : Bool :=
  c = ' ' || c = '\t' || c = '\n' || c = '\r' || c = '\x0b' || c = '\x0c'

/-- ASCII model of the regex class \w: letters, digits, underscore. -/
def isWordChar (c : Char) : Bool :=
  c.isAlphanum || c = '_'

/-- Python str.strip(): drop leading and trailing whitespace. -/
def pyStrip (s : List Char) : List Char :=
  ((s.dropWhile isSpaceChar).reverse.dropWhile isSpaceChar).reverse

/-- Left-to-right, non-overlapping removal of the regex alternation
" llc| inc| ltd" (main.py line 183-184), as re.sub with empty replacement. -/
def removeCorp : List Char → List Char
  | ' ' :: 'l' :: 'l' :: 'c' :: rest => removeCorp rest
  | ' ' :: 'i' :: 'n' :: 'c' :: rest => removeCorp rest
  | ' ' :: 'l' :: 't' :: 'd' :: rest => removeCorp rest
  | c :: rest => c :: removeCorp rest
  | [] => []

/-- Characters kept by the substitution of r'[^\w\s]' with "" (line 190-191). -/
def keepChar (c : Char) : Bool := isWordChar c || isSpaceChar c

/-- Replace a missing value by a default (one column of df.fillna, line 167). -/
def fillCell (default : Cell) : Cell → Cell
  | Cell.na => default
  | c => c

/-- Literal default string for missing name/address/city (line 165). -/
def notProvided : List Char := "not provided".toList

/-- The fillna step of clean_data (lines 164-167): name/address/city
default to "not provided", zip defaults to the integer 0. -/
def fillRow (r : Row) : Row :=
  { name := fillCell (Cell.str notProvided) r.name
    address := fillCell (Cell.str notProvided) r.address
    city := fillCell (Cell.str notProvided) r.city
    zip := fillCell (Cell.num 0) r.zip }

/-- The lowercase step (line 174): x.lower() on the three string columns.
A non-string cell has no .lower attribute, so pandas raises
AttributeError; the whole statement fails before assigning anything. -/
def lowerRow (r : Row) : Except PyError Row :=
  match r.name, r.address, r.city with
  | Cell.str n, Cell.str a, Cell.str c =>
      .ok (Row.mk (Cell.str (lowerStr n)) (Cell.str (lowerStr a))
                  (Cell.str (lowerStr c)) r.zip)
  | _, _, _ => .error .attributeError

/-- Whitespace-strip step (lines 178-179): strip() on every string cell
of the whole table (all four columns), other cells unchanged. -/
def stripCell : Cell → Cell
  | Cell.str s => Cell.str (pyStrip s)
  | c => c

def stripRow (r : Row) : Row :=
  ⟨stripCell r.name, stripCell r.address, stripCell r.city, stripCell r.zip⟩

/-- Corporate-suffix removal (lines 183-184), applied to the name column
via Series.str.replace; a non-string element would become NaN. -/
def corpCell : Cell → Cell
  | Cell.str s => Cell.str (removeCorp s)
  | _ => Cell.na

def corpRow (r : Row) : Row := { r with name := corpCell r.name }

/-- Symbol removal (lines 190-191): regex substitution on the three string
columns; DataFrame.replace with regex=True leaves non-string cells alone. -/
def symbolCell : Cell → Cell
  | Cell.str s => Cell.str (s.filter keepChar)
  | c => c

def symbolRow (r : Row) : Row :=
  { r with name := symbolCell r.name
           address := symbolCell r.address
           city := symbolCell r.city }

/-- Monadic map over a list that stops at the first error, as an
elementwise pandas operation does. -/
def mapE (f : α → Except PyError β) : List α → Except PyError (List β)
  | [] => .ok []
  | x :: xs =>
    match f x with
    | .error e => .error e
    | .ok y =>
      match mapE f xs with
      | .error e => .error e
      | .ok ys => .ok (y :: ys)

/-- Embedding of clean_data (main.py lines 136-200).  The first component
is the function's result (the returned table, or the raised error).  The
second component is the caller-visible final state of the argument: rename
and fillna act with inplace=True and the lowercase step assigns into the
caller's object, while from the strip step on (line 178, df = df.map ...)
the local df is rebound to new tables that the caller never sees.  The
positional column rename (lines 160-161) renames in place too, but column
names are not part of this cell-level model. -/
def cleanDataFull (df : List Row) : Except PyError (List Row) × List Row :=
  match mapE lowerRow (df.map fillRow) with
  | .error e => (.error e, df.map fillRow)
  | .ok lowered =>
    if (((lowered.map stripRow).map corpRow).map symbolRow).length = df.length
    then (.ok (((lowered.map stripRow).map corpRow).map symbolRow), lowered)
    else (.error .integrityError, lowered)

/-- Result of clean_data: the returned table or the raised error. -/
def cleanData (df : List Row) : Except PyError (List Row) :=
  (cleanDataFull df).1

/-- Caller-visible state of the argument after clean_data returns or
raises. -/
def cleanCaller (df : List Row) : List Row :=
  (cleanDataFull df).2

/-! Deduplication (remove_dupes, main.py lines 44-92). -/

/-- Group key of a row: the four columns used by groupby and
drop_duplicates. -/
abbrev Key : Type := Cell × Cell × Cell × Cell

def rowKey (r : Row) : Key := (r.name, r.address, r.city, r.zip)

def cellIsNa : Cell → Bool
  | Cell.na => true
  | _ => false

/-- Rows with a missing value in any group-key column are silently dropped
by pandas groupby (dropna=True by default). -/
def keyHasNa (r : Row) : Bool :=
  cellIsNa r.name || cellIsNa r.address || cellIsNa r.city || cellIsNa r.zip

/-- Total comparison used to model pandas value ordering inside one
column.  Pandas raises on mixed-type comparisons; the inter-type branches
are a total completion and no settled claim depends on them. -/
def listCharLeB : List Char → List Char → Bool
  | [], _ => true
  | _ :: _, [] => false
  | a :: as, b :: bs => if a = b then listCharLeB as bs else decide (a < b)

def cellLeB : Cell → Cell → Bool
  | Cell.num m, Cell.num n => decide (m ≤ n)
  | Cell.num _, _ => true
  | Cell.str s, Cell.str t => listCharLeB s t
  | Cell.str _, Cell.num _ => false
  | Cell.str _, Cell.na => true
  | Cell.na, Cell.na => true
  | Cell.na, _ => false

/-- Lexicographic order on group keys: the ascending key order in which
pandas groupby (sort=True, the default) emits the groups. -/
def keyLeB (a b : Key) : Bool :=
  if a.1 = b.1 then
    if a.2.1 = b.2.1 then
      if a.2.2.1 = b.2.2.1 then cellLeB a.2.2.2 b.2.2.2
      else cellLeB a.2.2.1 b.2.2.1
    else cellLeB a.2.1 b.2.1
  else cellLeB a.1 b.1

/-- Output row of groupby(...).size().reset_index(name="occurrences"):
the four key columns plus the group size. -/
structure PreRow where
  name : Cell
  address : Cell
  city : Cell
  zip : Cell
  occurrences : Nat
deriving DecidableEq, Repr

def preKey (p : PreRow) : Key := (p.name, p.address, p.city, p.zip)

/-- Occurrence count of one key in a list of keys (a group's size). -/
def countKey (l : List Key) (k : Key) : Nat :=
  (l.filter (fun x => x = k)).length

/-- Embedding of lines 73-74: group the rows of the table by the exact
(name, address, city, zip) tuple — dropping rows whose key contains a
missing value, as pandas groupby does — and emit one row per distinct
key, carrying the group size, in ascending key order. -/
def groupbySize (df : List Row) : List PreRow :=
  ((((df.filter (fun r => !(keyHasNa r))).map rowKey).dedup).insertionSort
      (fun a b => keyLeB a b = true)).map
    (fun k => PreRow.mk k.1 k.2.1 k.2.2.1 k.2.2.2
      (countKey ((df.filter (fun r => !(keyHasNa r))).map rowKey) k))

/-- Sort predicate of line 74: occurrences descending, then name
ascending; sort_values with several by-columns uses a stable lexsort. -/
def dupSortLeB (p q : PreRow) : Bool :=
  if p.occurrences = q.occurrences then cellLeB p.name q.name
  else decide (q.occurrences ≤ p.occurrences)

/-- Embedding of drop_duplicates(subset=key, keep="first") (lines 79-80):
keep the first row of each key, preserving order.  Structural recursion
on a fuel bound (the list length always suffices, since each step
consumes at least the head) keeps the function kernel-reducible. -/
def dropDupFirstAux : Nat → List PreRow → List PreRow
  | 0, _ => []
  | _ + 1, [] => []
  | fuel + 1, p :: ps =>
    p :: dropDupFirstAux fuel (ps.filter (fun q => !(preKey q = preKey p)))

def dropDupFirst (l : List PreRow) : List PreRow :=
  dropDupFirstAux l.length l

/-- Deduplicated record: the key columns, the occurrence count, and the
two source-indicator columns (lines 85-90).  In the else branch the code
writes a column literally named by `source`; in this pipeline `source` is
always "file1" or "file2", and the model uses the two-column schema the
code produces for those known sources. -/
structure DedupRow where
  name : Cell
  address : Cell
  city : Cell
  zip : Cell
  occurrences : Nat
  file1 : Bool
  file2 : Bool
deriving DecidableEq, Repr

def addSource (source : String) (p : PreRow) : DedupRow :=
  if source = "file1" then
    ⟨p.name, p.address, p.city, p.zip, p.occurrences, true, false⟩
  else
    ⟨p.name, p.address, p.city, p.zip, p.occurrences, false, true⟩

def dedupKey (d : DedupRow) : Key := (d.name, d.address, d.city, d.zip)

/-- Embedding of remove_dupes (main.py lines 44-92). -/
def removeDupes (df : List Row) (source : String) : List DedupRow :=
  (dropDupFirst ((groupbySize df).insertionSort
      (fun p q => dupSortLeB p q = true))).map (addSource source)

/-! MD5 (RFC 1321), the digest hashlib.md5 computes in main.py line 125.
Machine words are Nats reduced modulo 2^32. -/

def w32 : Nat := 4294967296

def add32 (a b : Nat) : Nat := (a + b) % w32

/-- Left rotation of a 32-bit word; for x < 2^32 the two summands occupy
disjoint bit ranges, so addition is bitwise disjunction. -/
def rotl32 (x n : Nat) : Nat := ((x <<< n) + (x >>> (32 - n))) % w32

def not32 (x : Nat) : Nat := x ^^^ (w32 - 1)

def mF (b c d : Nat) : Nat := (b &&& c) ||| (not32 b &&& d)

def mG (b c d : Nat) : Nat := (d &&& b) ||| (not32 d &&& c)

def mH (b c d : Nat) : Nat := b ^^^ c ^^^ d

def mI (b c d : Nat) : Nat := c ^^^ (b ||| not32 d)

/-- Round constants floor(2^32 * abs(sin(i + 1))). -/
def md5K : List Nat :=
  [0xd76aa478, 0xe8c7b756, 0x242070db, 0xc1bdceee,
   0xf57c0faf, 0x4787c62a, 0xa8304613, 0xfd469501,
   0x698098d8, 0x8b44f7af, 0xffff5bb1, 0x895cd7be,
   0x6b901122, 0xfd987193, 0xa679438e, 0x49b40821,
   0xf61e2562, 0xc040b340, 0x265e5a51, 0xe9b6c7aa,
   0xd62f105d, 0x02441453, 0xd8a1e681, 0xe7d3fbc8,
   0x21e1cde6, 0xc33707d6, 0xf4d50d87, 0x455a14ed,
   0xa9e3e905, 0xfcefa3f8, 0x676f02d9, 0x8d2a4c8a,
   0xfffa3942, 0x8771f681, 0x6d9d6122, 0xfde5380c,
   0xa4beea44, 0x4bdecfa9, 0xf6bb4b60, 0xbebfbc70,
   0x289b7ec6, 0xeaa127fa, 0xd4ef3085, 0x04881d05,
   0xd9d4d039, 0xe6db99e5, 0x1fa27cf8, 0xc4ac5665,
   0xf4292244, 0x432aff97, 0xab9423a7, 0xfc93a039,
   0x655b59c3, 0x8f0ccc92, 0xffeff47d, 0x85845dd1,
   0x6fa87e4f, 0xfe2ce6e0, 0xa3014314, 0x4e0811a1,
   0xf7537e82, 0xbd3af235, 0x2ad7d2bb, 0xeb86d391]

/-- Per-round left-rotation amounts. -/
def md5S : List Nat :=
  [7, 12, 17, 22, 7, 12, 17, 22, 7, 12, 17, 22, 7, 12, 17, 22,
   5, 9, 14, 20, 5, 9, 14, 20, 5, 9, 14, 20, 5, 9, 14, 20,
   4, 11, 16, 23, 4, 11, 16, 23, 4, 11, 16, 23, 4, 11, 16, 23,
   6, 10, 15, 21, 6, 10, 15, 21, 6, 10, 15, 21, 6, 10, 15, 21]

structure MD5St where
  a : Nat
  b : Nat
  c : Nat
  d : Nat
deriving DecidableEq, Repr

def md5Init : MD5St := ⟨0x67452301, 0xefcdab89, 0x98badcfe, 0x10325476⟩

/-- One of the 64 rounds applied to a 16-word message block m. -/
def md5Round (m : List Nat) (st : MD5St) (i : Nat) : MD5St :=
  let f :=
    if i < 16 then mF st.b st.c st.d
    else if i < 32 then mG st.b st.c st.d
    else if i < 48 then mH st.b st.c st.d
    else mI st.b st.c st.d
  let g :=
    if i < 16 then i
    else if i < 32 then (5 * i + 1) % 16
    else if i < 48 then (3 * i + 5) % 16
    else (7 * i) % 16
  let t := (st.a + f + md5K.getD i 0 + m.getD g 0) % w32
  MD5St.mk st.d (add32 st.b (rotl32 t (md5S.getD i 0))) st.b st.c

/-- Word j of a 64-byte chunk, little-endian. -/
def leWord (chunk : List Nat) (j : Nat) : Nat :=
  chunk.getD (4 * j) 0 + 256 * chunk.getD (4 * j + 1) 0 +
    65536 * chunk.getD (4 * j + 2) 0 + 16777216 * chunk.getD (4 * j + 3) 0

/-- Process one 64-byte chunk. -/
def md5Chunk (st : MD5St) (chunk : List Nat) : MD5St :=
  let m := (List.range 16).map (leWord chunk)
  let e := (List.range 64).foldl (md5Round m) st
  MD5St.mk (add32 st.a e.a) (add32 st.b e.b) (add32 st.c e.c) (add32 st.d e.d)

/-- Low k bytes of a Nat, little-endian. -/
def leBytes : Nat → Nat → List Nat
  | 0, _ => []
  | k + 1, n => (n % 256) :: leBytes k (n / 256)

/-- MD5 padding: 0x80, zeros to 56 mod 64, then the 8-byte little-endian
bit length. -/
def md5Pad (msg : List Nat) : List Nat :=
  let len := msg.length
  let padZeros := (119 - (len % 64)) % 64
  msg ++ 128 :: (List.replicate padZeros 0 ++ leBytes 8 (len * 8))

/-- Split into 64-byte chunks.  Fuel-based structural recursion (the
length always suffices since each chunk consumes at least one byte). -/
def toChunksAux : Nat → List Nat → List (List Nat)
  | 0, _ => []
  | _ + 1, [] => []
  | fuel + 1, x :: l => (x :: l).take 64 :: toChunksAux fuel ((x :: l).drop 64)

def toChunks (l : List Nat) : List (List Nat) := toChunksAux l.length l

def md5Core (msg : List Nat) : MD5St :=
  (toChunks (md5Pad msg)).foldl md5Chunk md5Init

def hexDigit (n : Nat) : Char := "0123456789abcdef".toList.getD n '0'

def byteHex (b : Nat) : List Char := [hexDigit (b / 16), hexDigit (b % 16)]

/-- Hexadecimal digest (hashlib's hexdigest): the 16 digest bytes, the
four state words serialized little-endian in order a, b, c, d. -/
def md5Hex (msg : List Nat) : List Char :=
  (leBytes 4 (md5Core msg).a ++ leBytes 4 (md5Core msg).b ++
    leBytes 4 (md5Core msg).c ++ leBytes 4 (md5Core msg).d).flatMap byteHex

/-! Serialization feeding the digest: main.py line 125-126 hashes
str(tuple(x)).encode('utf-8') for each row x of the combined table, whose
columns at that point are name, address, city, zip, occurrences, file1,
file2. -/

/-- UTF-8 encoding of one code point. -/
def utf8Char (c : Char) : List Nat :=
  let n := c.toNat
  if n < 128 then [n]
  else if n < 2048 then [192 + n / 64, 128 + n % 64]
  else if n < 65536 then [224 + n / 4096, 128 + (n / 64) % 64, 128 + n % 64]
  else [240 + n / 262144, 128 + (n / 4096) % 64, 128 + (n / 64) % 64, 128 + n % 64]

def utf8 (s : List Char) : List Nat := s.flatMap utf8Char

/-- Decimal digits of a Nat (Python's repr of an int).  Fuel-based
structural recursion; n + 1 steps always suffice. -/
def natDigitsAux : Nat → Nat → List Char
  | 0, _ => []
  | fuel + 1, n =>
    if n < 10 then [hexDigit n]
    else natDigitsAux fuel (n / 10) ++ [hexDigit (n % 10)]

def natDigits (n : Nat) : List Char := natDigitsAux (n + 1) n

def intRepr (n : Int) : List Char :=
  if n < 0 then '-' :: natDigits n.natAbs else natDigits n.natAbs

/-- Escaping of one character inside a Python string repr quoted by q.
Printable characters stand for themselves; the model prints code points
at and above 128 raw, as CPython does for printable ones. -/
def pyEscChar (q : Char) (c : Char) : List Char :=
  if c = '\\' then ['\\', '\\']
  else if c = q then ['\\', q]
  else if c = '\n' then ['\\', 'n']
  else if c = '\r' then ['\\', 'r']
  else if c = '\t' then ['\\', 't']
  else if c.toNat < 32 || c.toNat = 127 then
    ['\\', 'x', hexDigit (c.toNat / 16), hexDigit (c.toNat % 16)]
  else [c]

/-- CPython repr of a string: single-quoted, unless the string holds a
single quote and no double quote. -/
def pyReprStr (s : List Char) : List Char :=
  let q := if s.contains '\'' && !(s.contains '"') then '"' else '\''
  q :: (s.flatMap (pyEscChar q) ++ [q])

/-- Repr of one cell as an element of the hashed tuple.  A missing value
in the merged table would print as nan; cleaned rows never carry one. -/
def cellPyRepr : Cell → List Char
  | Cell.str s => pyReprStr s
  | Cell.num n => intRepr n
  | Cell.na => "nan".toList

/-- Repr of a boolean cell (the numpy 1.x repr of a bool scalar). -/
def boolPyRepr (b : Bool) : List Char :=
  if b then "True".toList else "False".toList

def commaSep : List (List Char) → List Char
  | [] => []
  | [x] => x
  | x :: y :: xs => x ++ (", ".toList ++ commaSep (y :: xs))

/-- The str(tuple(x)) string hashed for a row of the combined table. -/
def rowTupleStr (d : DedupRow) : List Char :=
  '(' :: (commaSep [cellPyRepr d.name, cellPyRepr d.address, cellPyRepr d.city,
    cellPyRepr d.zip, natDigits d.occurrences, boolPyRepr d.file1,
    boolPyRepr d.file2] ++ [')'])

/-- The id assigned to a row by combine_dataframes (line 125-126). -/
def rowId (d : DedupRow) : List Char := md5Hex (utf8 (rowTupleStr d))

/-- Row of the final merged table: the id column moved to the front
(lines 130-131) followed by the row's values. -/
structure FinalRow where
  id : List Char
  name : Cell
  address : Cell
  city : Cell
  zip : Cell
  occurrences : Nat
  file1 : Bool
  file2 : Bool
deriving DecidableEq, Repr

/-- The non-id values of a final row. -/
def finalValues (f : FinalRow) : DedupRow :=
  ⟨f.name, f.address, f.city, f.zip, f.occurrences, f.file1, f.file2⟩

def mkFinal (d : DedupRow) : FinalRow :=
  ⟨rowId d, d.name, d.address, d.city, d.zip, d.occurrences, d.file1, d.file2⟩

/-- Embedding of combine_dataframes (main.py lines 95-133).  pd.concat
raises ValueError on an empty collection.  The name sort is modelled by a
stable insertion sort; the code calls sort_values with the default
kind="quicksort", whose tie order pandas does not specify, and no theorem
below relies on the model's tie order — only on the sort being a
permutation. -/
def combineDataframes (dfs : List (List DedupRow)) :
    Except PyError (List FinalRow) :=
  if dfs.isEmpty then .error .valueError
  else
    .ok ((dfs.flatten.insertionSort
      (fun p q => cellLeB p.name q.name = true)).map mkFinal)

/-! Sanity checks of the embedding against reference values: the digests
below equal hashlib.md5 hexdigests of the same byte strings. -/

set_option maxRecDepth 100000

example : (md5Hex (utf8 [])).asString = "d41d8cd98f00b204e9800998ecf8427e" := by
  decide

example : (md5Hex (utf8 ['a', 'b', 'c'])).asString =
    "900150983cd24fb0d6963f7d28e17f72" := by decide

example : (md5Hex (utf8 (List.replicate 100 'a'))).asString =
    "36a92cc94a9e0fa21f625f8bfb007adf" := by decide

example :
    (rowTupleStr ⟨Cell.str ['a'], Cell.str ['b'], Cell.str ['c'],
      Cell.num 0, 1, true, false⟩).asString =
    "('a', 'b', 'c', 0, 1, True, False)" := by decide

example :
    (rowId ⟨Cell.str ['a'], Cell.str ['b'], Cell.str ['c'],
      Cell.num 0, 1, true, false⟩).asString =
    "042dc0683aac936a85b3a53a58d675b7" := by decide

/-! General lemmas about the embedding. -/

theorem mapE_ok_length {f : α → Except PyError β} :
    ∀ {l : List α} {ys : List β}, mapE f l = .ok ys → ys.length = l.length := by
  intro l
  induction l with
  | nil => intro ys h; cases h; rfl
  | cons x xs ih =>
    intro ys h
    unfold mapE at h
    cases hx : f x with
    | error e => rw [hx] at h; cases h
    | ok y =>
      rw [hx] at h
      cases hxs : mapE f xs with
      | error e => rw [hxs] at h; cases h
      | ok ys0 =>
        rw [hxs] at h
        cases h
        simp [ih hxs]

theorem mapE_ok_mem {f : α → Except PyError β} :
    ∀ {l : List α} {ys : List β}, mapE f l = .ok ys →
      ∀ y ∈ ys, ∃ x ∈ l, f x = .ok y := by
  intro l
  induction l with
  | nil => intro ys h; cases h; intro y hy; cases hy
  | cons x xs ih =>
    intro ys h
    unfold mapE at h
    cases hx : f x with
    | error e => rw [hx] at h; cases h
    | ok y0 =>
      rw [hx] at h
      cases hxs : mapE f xs with
      | error e => rw [hxs] at h; cases h
      | ok ys0 =>
        rw [hxs] at h
        cases h
        intro y hy
        rcases List.mem_cons.mp hy with h1 | h2
        · exact ⟨x, List.mem_cons_self x xs, h1 ▸ hx⟩
        · rcases ih hxs y h2 with ⟨x0, hx0, hfx0⟩
          exact ⟨x0, List.mem_cons_of_mem x hx0, hfx0⟩

theorem mapE_ok_forall {f : α → Except PyError β} :
    ∀ {l : List α} {ys : List β}, mapE f l = .ok ys →
      ∀ x ∈ l, ∃ y, f x = .ok y := by
  intro l
  induction l with
  | nil => intro ys _ x hx; cases hx
  | cons x xs ih =>
    intro ys h
    unfold mapE at h
    cases hx : f x with
    | error e => rw [hx] at h; cases h
    | ok y0 =>
      rw [hx] at h
      cases hxs : mapE f xs with
      | error e => rw [hxs] at h; cases h
      | ok ys0 =>
        intro x1 hx1
        rcases List.mem_cons.mp hx1 with h1 | h2
        · exact ⟨y0, h1 ▸ hx⟩
        · exact ih hxs x1 h2

theorem mapE_map_of_ok {f : α → Except PyError β} {g : α → β}
    (hg : ∀ x y, f x = .ok y → y = g x) :
    ∀ {l : List α} {ys : List β}, mapE f l = .ok ys → ys = l.map g := by
  intro l
  induction l with
  | nil => intro ys h; cases h; rfl
  | cons x xs ih =>
    intro ys h
    unfold mapE at h
    cases hx : f x with
    | error e => rw [hx] at h; cases h
    | ok y0 =>
      rw [hx] at h
      cases hxs : mapE f xs with
      | error e => rw [hxs] at h; cases h
      | ok ys0 =>
        rw [hxs] at h
        cases h
        rw [List.map_cons, ← hg x y0 hx, ← ih hxs]

theorem mapE_ok_of_forall {f : α → Except PyError α} :
    ∀ {l : List α}, (∀ x ∈ l, f x = .ok x) → mapE f l = .ok l := by
  intro l
  induction l with
  | nil => intro _; rfl
  | cons x xs ih =>
    intro h
    unfold mapE
    rw [h x (List.mem_cons_self x xs), ih (fun y hy => h y (List.mem_cons_of_mem x hy))]

/-- clean_data raises only AttributeError (from x.lower()) or the
integrity Exception; the lowercase step raises only AttributeError. -/
theorem lowerRow_error {r : Row} {e : PyError} :
    lowerRow r = .error e → e = .attributeError := by
  unfold lowerRow
  cases r.name <;> cases r.address <;> cases r.city <;> intro h <;>
    cases h <;> rfl

theorem mapE_lowerRow_cases (l : List Row) :
    (∃ ys, mapE lowerRow l = .ok ys) ∨
      mapE lowerRow l = .error .attributeError := by
  induction l with
  | nil => exact Or.inl ⟨[], rfl⟩
  | cons x xs ih =>
    unfold mapE
    cases hx : lowerRow x with
    | error e => right; rw [lowerRow_error hx]
    | ok y =>
      rcases ih with ⟨ys, hys⟩ | herr
      · left; exact ⟨y :: ys, by rw [hys]⟩
      · right; rw [herr]

/-! Claim C1: clean_data preserves the row count. -/

/-- Claim C1 (confirmed).  For every input table, a normal return of
clean_data carries exactly as many rows as the input; the integrity
branch (lines 197-198) raises instead of returning whenever the counts
would differ, so a returned table can never differ in row count. -/
theorem clean_data_preserves_row_count (df out : List Row)
    (h : cleanData df = .ok out) : out.length = df.length := by
  unfold cleanData cleanDataFull at h
  split at h
  · cases h
  · split at h
    · rename_i hlen
      cases h
      exact hlen
    · cases h

/-- Witness for C1 at a concrete two-row table. -/
theorem clean_data_preserves_row_count_witness :
    ([⟨Cell.str ['a', 'c', 'm', 'e'], Cell.str ['b'], Cell.str ['c'],
        Cell.num 0⟩,
      ⟨Cell.str notProvided, Cell.str ['x'], Cell.str ['y'], Cell.num 5⟩] :
        List Row).length =
    ([⟨Cell.str ['A', 'c', 'm', 'e', '!'], Cell.str ['b'], Cell.str ['c'],
        Cell.na⟩,
      ⟨Cell.na, Cell.str ['x'], Cell.str ['y'], Cell.num 5⟩] :
        List Row).length :=
  clean_data_preserves_row_count _ _ rfl

/-! Claim C10: clean_data requires the three text columns to hold
strings. -/

def cellIsStr : Cell → Bool
  | Cell.str _ => true
  | _ => false

/-- Claim C10 (confirmed).  A table holding a non-missing, non-string
value in the name, address or city column makes clean_data raise
AttributeError (the value has no .lower attribute) instead of returning
a normalized table. -/
theorem clean_data_rejects_nonstring (df : List Row)
    (h : ∃ r ∈ df,
      (cellIsStr r.name = false ∧ cellIsNa r.name = false) ∨
      (cellIsStr r.address = false ∧ cellIsNa r.address = false) ∨
      (cellIsStr r.city = false ∧ cellIsNa r.city = false)) :
    cleanData df = .error .attributeError := by
  have hnum : ∀ c : Cell, cellIsStr c = false → cellIsNa c = false →
      ∃ n, c = Cell.num n := by
    intro c h1 h2
    cases c with
    | str s => cases h1
    | num n => exact ⟨n, rfl⟩
    | na => cases h2
  have hlow : ∀ u : Row,
      ((∃ n, u.name = Cell.num n) ∨ (∃ n, u.address = Cell.num n) ∨
        (∃ n, u.city = Cell.num n)) →
      lowerRow u = .error .attributeError := by
    intro u hu
    rcases u with ⟨un, ua, uc, uz⟩
    unfold lowerRow
    dsimp only at hu ⊢
    cases un <;> cases ua <;> cases uc <;>
      first
        | rfl
        | (rcases hu with ⟨n, hn⟩ | ⟨n, hn⟩ | ⟨n, hn⟩ <;> cases hn)
  rcases h with ⟨r, hr, hbad⟩
  have hfill : lowerRow (fillRow r) = .error .attributeError := by
    apply hlow
    rcases hbad with ⟨h1, h2⟩ | ⟨h1, h2⟩ | ⟨h1, h2⟩ <;>
      rcases hnum _ h1 h2 with ⟨n, hn⟩
    · exact Or.inl ⟨n, by simp [fillRow, hn, fillCell]⟩
    · exact Or.inr (Or.inl ⟨n, by simp [fillRow, hn, fillCell]⟩)
    · exact Or.inr (Or.inr ⟨n, by simp [fillRow, hn, fillCell]⟩)
  have hmem : fillRow r ∈ df.map fillRow := List.mem_map_of_mem fillRow hr
  rcases mapE_lowerRow_cases (df.map fillRow) with ⟨ys, hys⟩ | herr
  · rcases mapE_ok_forall hys (fillRow r) hmem with ⟨y, hy⟩
    rw [hfill] at hy
    cases hy
  · unfold cleanData cleanDataFull
    rw [herr]

/-- Witness for C10: a numeric name cell. -/
theorem clean_data_rejects_nonstring_witness :
    cleanData [⟨Cell.num 7, Cell.str ['b'], Cell.str ['c'], Cell.num 5⟩] =
      .error .attributeError :=
  clean_data_rejects_nonstring _
    ⟨⟨Cell.num 7, Cell.str ['b'], Cell.str ['c'], Cell.num 5⟩,
      List.mem_cons_self _ _, Or.inl ⟨rfl, rfl⟩⟩

/-! Claim C8: merging an empty collection fails. -/

/-- Claim C8 (confirmed).  combine_dataframes on an empty collection
raises (pd.concat refuses an empty list of objects) rather than
returning an empty table. -/
theorem merge_empty_input_error :
    combineDataframes [] = .error .valueError := rfl

/-! Claim C2: keys are unique within one source's deduplicated output. -/

theorem dropDupFirstAux_subset :
    ∀ (fuel : Nat) (l : List PreRow) (q : PreRow),
      q ∈ dropDupFirstAux fuel l → q ∈ l := by
  intro fuel
  induction fuel with
  | zero => intro l q h; cases h
  | succ fuel ih =>
    intro l q h
    cases l with
    | nil => cases h
    | cons p ps =>
      rcases List.mem_cons.mp h with h1 | h2
      · exact h1 ▸ List.mem_cons_self p ps
      · exact List.mem_cons_of_mem p (List.mem_of_mem_filter (ih _ q h2))

theorem dropDupFirstAux_pairwise :
    ∀ (fuel : Nat) (l : List PreRow),
      (dropDupFirstAux fuel l).Pairwise (fun a b => preKey a ≠ preKey b) := by
  intro fuel
  induction fuel with
  | zero => intro l; exact List.Pairwise.nil
  | succ fuel ih =>
    intro l
    cases l with
    | nil => exact List.Pairwise.nil
    | cons p ps =>
      refine List.pairwise_cons.mpr ⟨?_, ih _⟩
      intro q hq
      have hqf := dropDupFirstAux_subset fuel _ q hq
      have hne : preKey q ≠ preKey p := by
        simpa using List.of_mem_filter hqf
      exact hne.symm

theorem dropDupFirst_pairwise (l : List PreRow) :
    (dropDupFirst l).Pairwise (fun a b => preKey a ≠ preKey b) :=
  dropDupFirstAux_pairwise l.length l

theorem addSource_key (source : String) (p : PreRow) :
    dedupKey (addSource source p) = preKey p := by
  unfold addSource dedupKey preKey
  split <;> rfl

theorem addSource_occurrences (source : String) (p : PreRow) :
    (addSource source p).occurrences = p.occurrences := by
  unfold addSource
  split <;> rfl

/-- Claim C2 (confirmed).  For every input table and source identifier,
no two rows of the deduplicated output of remove_dupes share the same
(name, address, city, zip) tuple: drop_duplicates keeps the first row of
each key, and the source-indicator columns do not touch the key. -/
theorem remove_dupes_key_unique (df : List Row) (source : String) :
    (removeDupes df source).Pairwise (fun a b => dedupKey a ≠ dedupKey b) := by
  unfold removeDupes
  rw [List.pairwise_map]
  have h := dropDupFirst_pairwise
    ((groupbySize df).insertionSort (fun p q => dupSortLeB p q = true))
  refine h.imp ?_
  intro a b hab
  rw [addSource_key, addSource_key]
  exact hab

/-! Claim C3: occurrence counts sum to the input row count and are
positive. -/

theorem countKey_cons (a k : Key) (l : List Key) :
    countKey (a :: l) k = (if a = k then 1 else 0) + countKey l k := by
  unfold countKey
  rw [List.filter_cons]
  by_cases h : a = k
  · simp [h]
    omega
  · simp [h]

theorem countKey_eq_zero : ∀ {l : List Key} {a : Key},
    a ∉ l → countKey l a = 0 := by
  intro l
  induction l with
  | nil => intro a _; rfl
  | cons b l ih =>
    intro a ha
    rw [List.mem_cons] at ha
    push_neg at ha
    rw [countKey_cons, if_neg (fun h => ha.1 h.symm), ih ha.2]

theorem countKey_pos : ∀ {l : List Key} {k : Key}, k ∈ l → 1 ≤ countKey l k := by
  intro l
  induction l with
  | nil => intro k h; cases h
  | cons a l ih =>
    intro k h
    rw [countKey_cons]
    rcases List.mem_cons.mp h with h1 | h2
    · rw [if_pos h1.symm]
      omega
    · have := ih h2
      omega

theorem sum_map_add_nat (d : List Key) (f g : Key → Nat) :
    (d.map (fun k => f k + g k)).sum = (d.map f).sum + (d.map g).sum := by
  induction d with
  | nil => rfl
  | cons a d ih =>
    simp only [List.map_cons, List.sum_cons, ih]
    omega

theorem sum_ite_eq_zero (d : List Key) (a : Key) (ha : a ∉ d) :
    (d.map (fun k => if a = k then 1 else 0)).sum = 0 := by
  induction d with
  | nil => rfl
  | cons b d ih =>
    rw [List.mem_cons] at ha
    push_neg at ha
    simp only [List.map_cons, List.sum_cons]
    rw [if_neg ha.1, ih ha.2]

theorem sum_ite_eq_one : ∀ (d : List Key) (a : Key), d.Nodup → a ∈ d →
    (d.map (fun k => if a = k then 1 else 0)).sum = 1 := by
  intro d
  induction d with
  | nil => intro a _ ha; cases ha
  | cons b d ih =>
    intro a hnd ha
    rw [List.nodup_cons] at hnd
    simp only [List.map_cons, List.sum_cons]
    rcases List.mem_cons.mp ha with h1 | h2
    · subst h1
      rw [if_pos rfl, sum_ite_eq_zero d a hnd.1]
    · have hne : a ≠ b := fun h => hnd.1 (h ▸ h2)
      rw [if_neg hne, ih a hnd.2 h2]

/-- Group sizes over the distinct keys sum to the total number of keys. -/
theorem sum_countKey_dedup : ∀ (l : List Key),
    ((l.dedup).map (countKey l)).sum = l.length := by
  intro l
  induction l with
  | nil => rfl
  | cons a l ih =>
    by_cases ha : a ∈ l
    · rw [List.dedup_cons_of_mem ha]
      have hcong : (l.dedup).map (countKey (a :: l)) =
          (l.dedup).map (fun k => (if a = k then 1 else 0) + countKey l k) :=
        List.map_congr_left (fun k _ => countKey_cons a k l)
      rw [hcong, sum_map_add_nat, ih,
        sum_ite_eq_one l.dedup a (List.nodup_dedup l) (List.mem_dedup.mpr ha),
        List.length_cons]
      omega
    · rw [List.dedup_cons_of_not_mem ha, List.map_cons, List.sum_cons,
        countKey_cons, if_pos rfl, countKey_eq_zero ha]
      have hcong : (l.dedup).map (countKey (a :: l)) =
          (l.dedup).map (countKey l) := by
        apply List.map_congr_left
        intro k hk
        rw [countKey_cons]
        have hne : a ≠ k := fun h => ha (h ▸ List.mem_dedup.mp hk)
        rw [if_neg hne]
        omega
      rw [hcong, ih, List.length_cons]
      omega

theorem dropDupFirstAux_eq_self :
    ∀ (fuel : Nat) (l : List PreRow), l.length ≤ fuel →
      (l.map preKey).Nodup → dropDupFirstAux fuel l = l := by
  intro fuel
  induction fuel with
  | zero =>
    intro l hlen _
    rw [List.length_eq_zero.mp (Nat.le_zero.mp hlen)]
    rfl
  | succ fuel ih =>
    intro l hlen hnd
    cases l with
    | nil => rfl
    | cons p ps =>
      rw [List.map_cons, List.nodup_cons] at hnd
      rcases hnd with ⟨hnotmem, hnd⟩
      have hfil : ps.filter (fun q => !(preKey q = preKey p)) = ps := by
        rw [List.filter_eq_self]
        intro q hq
        have : preKey q ≠ preKey p := by
          intro heq
          exact hnotmem (heq ▸ List.mem_map_of_mem preKey hq)
        simpa using this
      unfold dropDupFirstAux
      rw [hfil, ih ps (by simpa using Nat.le_of_succ_le_succ (by simpa using hlen)) hnd]

theorem dropDupFirst_eq_self (l : List PreRow)
    (hnd : (l.map preKey).Nodup) : dropDupFirst l = l :=
  dropDupFirstAux_eq_self l.length l (Nat.le_refl _) hnd

theorem groupbySize_keys (df : List Row) :
    (groupbySize df).map preKey =
      (((df.filter (fun r => !(keyHasNa r))).map rowKey).dedup).insertionSort
        (fun a b => keyLeB a b = true) := by
  unfold groupbySize
  rw [List.map_map]
  apply List.map_id''
  intro k
  rfl

theorem groupbySize_keys_nodup (df : List Row) :
    ((groupbySize df).map preKey).Nodup := by
  rw [groupbySize_keys]
  exact ((List.perm_insertionSort _ _).nodup_iff).mpr (List.nodup_dedup _)

/-- Claim C3 (confirmed).  For a normalized input (no missing value in
any key column — pandas groupby would silently drop such rows), the
occurrences column of remove_dupes sums to the input row count, and
every occurrence count is at least 1. -/
theorem remove_dupes_occurrence_sum (df : List Row) (source : String)
    (h : ∀ r ∈ df, keyHasNa r = false) :
    ((removeDupes df source).map (fun d => d.occurrences)).sum = df.length ∧
      ∀ d ∈ removeDupes df source, 1 ≤ d.occurrences := by
  have hfil : df.filter (fun r => !(keyHasNa r)) = df :=
    List.filter_eq_self.mpr (fun r hr => by rw [h r hr]; rfl)
  have hsortperm : List.Perm
      ((groupbySize df).insertionSort (fun p q => dupSortLeB p q = true))
      (groupbySize df) := List.perm_insertionSort _ _
  have hsorted_nodup :
      (((groupbySize df).insertionSort
          (fun p q => dupSortLeB p q = true)).map preKey).Nodup :=
    ((hsortperm.map preKey).nodup_iff).mpr (groupbySize_keys_nodup df)
  have hdrop :
      dropDupFirst ((groupbySize df).insertionSort
          (fun p q => dupSortLeB p q = true)) =
        (groupbySize df).insertionSort (fun p q => dupSortLeB p q = true) :=
    dropDupFirst_eq_self _ hsorted_nodup
  have hrd : removeDupes df source =
      ((groupbySize df).insertionSort
        (fun p q => dupSortLeB p q = true)).map (addSource source) := by
    unfold removeDupes
    rw [hdrop]
  constructor
  · rw [hrd, List.map_map]
    have hocc : ((fun d => d.occurrences) ∘ addSource source) =
        (fun p : PreRow => p.occurrences) := by
      funext p
      exact addSource_occurrences source p
    rw [hocc]
    have hsum :
        (((groupbySize df).insertionSort
            (fun p q => dupSortLeB p q = true)).map
          (fun p : PreRow => p.occurrences)).sum =
          ((groupbySize df).map (fun p : PreRow => p.occurrences)).sum :=
      (hsortperm.map _).sum_eq
    rw [hsum]
    unfold groupbySize
    rw [hfil, List.map_map]
    have hcomp : ((fun p : PreRow => p.occurrences) ∘ fun k : Key =>
        PreRow.mk k.1 k.2.1 k.2.2.1 k.2.2.2 (countKey (df.map rowKey) k)) =
        countKey (df.map rowKey) := rfl
    rw [hcomp]
    have hperm2 := (List.perm_insertionSort (fun a b => keyLeB a b = true)
      ((df.map rowKey).dedup)).map (countKey (df.map rowKey))
    rw [hperm2.sum_eq, sum_countKey_dedup, List.length_map]
  · intro d hd
    rw [hrd] at hd
    rcases List.mem_map.mp hd with ⟨p, hp, rfl⟩
    rw [addSource_occurrences]
    have hpg : p ∈ groupbySize df := hsortperm.mem_iff.mp hp
    unfold groupbySize at hpg
    rw [hfil] at hpg
    rcases List.mem_map.mp hpg with ⟨k, hk, rfl⟩
    have hkmem : k ∈ (df.map rowKey).dedup :=
      (List.perm_insertionSort _ _).mem_iff.mp hk
    exact countKey_pos (List.mem_dedup.mp hkmem)

/-- Witness for C3: a three-row table with one duplicated key. -/
theorem remove_dupes_occurrence_sum_witness :
    ((removeDupes
        [⟨Cell.str ['a'], Cell.str ['b'], Cell.str ['c'], Cell.num 1⟩,
         ⟨Cell.str ['d'], Cell.str ['e'], Cell.str ['f'], Cell.num 2⟩,
         ⟨Cell.str ['a'], Cell.str ['b'], Cell.str ['c'], Cell.num 1⟩]
        "file1").map (fun d => d.occurrences)).sum = 3 ∧
      1 ≤ (DedupRow.mk (Cell.str ['a']) (Cell.str ['b']) (Cell.str ['c'])
        (Cell.num 1) 2 true false).occurrences := by
  have h := remove_dupes_occurrence_sum
    [⟨Cell.str ['a'], Cell.str ['b'], Cell.str ['c'], Cell.num 1⟩,
     ⟨Cell.str ['d'], Cell.str ['e'], Cell.str ['f'], Cell.num 2⟩,
     ⟨Cell.str ['a'], Cell.str ['b'], Cell.str ['c'], Cell.num 1⟩]
    "file1" (by decide)
  exact ⟨h.1, h.2 _ (by decide)⟩

/-! Claim C6: idempotence of clean_data. -/

theorem charOfNat_toNat {n : Nat} (h : n < 55296) : (Char.ofNat n).toNat = n := by
  unfold Char.ofNat
  rw [dif_pos (Or.inl h)]
  rfl

theorem lowerChar_eq_self {x : Char}
    (h : ¬(65 ≤ x.toNat ∧ x.toNat ≤ 90)) : lowerChar x = x := by
  unfold lowerChar
  rw [if_neg h]

theorem lowerChar_idem (c : Char) : lowerChar (lowerChar c) = lowerChar c := by
  by_cases h : 65 ≤ c.toNat ∧ c.toNat ≤ 90
  · have hv : c.toNat + 32 < 55296 := by
      rcases h with ⟨h1, h2⟩
      have := c.toNat
      omega
    have h2 : (lowerChar c).toNat = c.toNat + 32 := by
      unfold lowerChar
      rw [if_pos h, charOfNat_toNat hv]
    exact lowerChar_eq_self (by rw [h2]; omega)
  · rw [lowerChar_eq_self h, lowerChar_eq_self h]

theorem lowerChar_mem_fix {c : Char} {s : List Char}
    (h : c ∈ lowerStr s) : lowerChar c = c := by
  rcases List.mem_map.mp h with ⟨x, _, rfl⟩
  exact lowerChar_idem x

theorem map_fix {α : Type} : ∀ {l : List α} {f : α → α},
    (∀ x ∈ l, f x = x) → l.map f = l := by
  intro l
  induction l with
  | nil => intro f _; rfl
  | cons a l ih =>
    intro f h
    rw [List.map_cons, h a (List.mem_cons_self a l),
      ih (fun x hx => h x (List.mem_cons_of_mem a hx))]

theorem lowerStr_fix {s : List Char}
    (h : ∀ c ∈ s, lowerChar c = c) : lowerStr s = s :=
  map_fix h

theorem mem_pyStrip {c : Char} {s : List Char} (h : c ∈ pyStrip s) : c ∈ s := by
  unfold pyStrip at h
  rw [List.mem_reverse] at h
  have h1 := (List.dropWhile_sublist isSpaceChar).mem h
  rw [List.mem_reverse] at h1
  exact (List.dropWhile_sublist isSpaceChar).mem h1

theorem mem_removeCorp : ∀ {s : List Char} {c : Char}, c ∈ removeCorp s → c ∈ s := by
  intro s
  induction s using removeCorp.induct with
  | case1 rest ih =>
    intro c h
    have h2 : c ∈ removeCorp rest := h
    exact List.mem_cons_of_mem _ (List.mem_cons_of_mem _
      (List.mem_cons_of_mem _ (List.mem_cons_of_mem _ (ih h2))))
  | case2 rest ih =>
    intro c h
    have h2 : c ∈ removeCorp rest := h
    exact List.mem_cons_of_mem _ (List.mem_cons_of_mem _
      (List.mem_cons_of_mem _ (List.mem_cons_of_mem _ (ih h2))))
  | case3 rest ih =>
    intro c h
    have h2 : c ∈ removeCorp rest := h
    exact List.mem_cons_of_mem _ (List.mem_cons_of_mem _
      (List.mem_cons_of_mem _ (List.mem_cons_of_mem _ (ih h2))))
  | case4 c rest h1 h2 h3 ih =>
    intro c0 h
    rw [removeCorp.eq_4 c rest h1 h2 h3] at h
    rcases List.mem_cons.mp h with he | hm
    · exact he ▸ List.mem_cons_self c rest
    · exact List.mem_cons_of_mem c (ih hm)
  | case5 =>
    intro c h
    cases h

theorem fillCell_notNa {c : Cell} (d : Cell)
    (h : cellIsNa c = false) : fillCell d c = c := by
  cases c with
  | na => cases h
  | str s => rfl
  | num n => rfl

theorem stripCell_notNa {z : Cell}
    (h : cellIsNa z = false) : cellIsNa (stripCell z) = false := by
  cases z with
  | na => cases h
  | str s => rfl
  | num n => rfl

theorem filter_keep_idem (l : List Char) :
    (l.filter keepChar).filter keepChar = l.filter keepChar := by
  rw [List.filter_filter]
  apply List.filter_congr
  intro a _
  rw [Bool.and_self]

/-- Shape of every row returned by clean_data: each text column is the
symbol-filtered, (for name) suffix-stripped, trimmed, lowercased original
string; zip is a trimmed non-missing cell. -/
theorem cleanData_ok_shape {df out : List Row} (h : cleanData df = .ok out) :
    ∀ r ∈ out, ∃ sn sa sc zc,
      r = ⟨Cell.str ((removeCorp (pyStrip (lowerStr sn))).filter keepChar),
           Cell.str ((pyStrip (lowerStr sa)).filter keepChar),
           Cell.str ((pyStrip (lowerStr sc)).filter keepChar),
           stripCell zc⟩ ∧ cellIsNa zc = false := by
  unfold cleanData cleanDataFull at h
  split at h
  · cases h
  · rename_i lowered hm
    split at h
    · cases h
      intro r hr
      rcases List.mem_map.mp hr with ⟨r2, hr2, rfl⟩
      rcases List.mem_map.mp hr2 with ⟨r3, hr3, rfl⟩
      rcases List.mem_map.mp hr3 with ⟨l, hl, rfl⟩
      rcases mapE_ok_mem hm l hl with ⟨u, hu, hlu⟩
      rcases List.mem_map.mp hu with ⟨w, _, rfl⟩
      have hzna : cellIsNa (fillRow w).zip = false := by
        cases hz : w.zip <;> simp [fillRow, fillCell, hz, cellIsNa]
      unfold lowerRow at hlu
      cases hn : (fillRow w).name with
      | str sn =>
        cases ha : (fillRow w).address with
        | str sa =>
          cases hc : (fillRow w).city with
          | str sc =>
            rw [hn, ha, hc] at hlu
            cases hlu
            exact ⟨sn, sa, sc, (fillRow w).zip, rfl, hzna⟩
          | num n => rw [hn, ha, hc] at hlu; cases hlu
          | na => rw [hn, ha, hc] at hlu; cases hlu
        | num n => rw [hn, ha] at hlu; cases (by cases hc : (fillRow w).city <;> rw [hc] at hlu <;> exact hlu : (Except.error PyError.attributeError : Except PyError Row) = .ok l)
        | na => rw [hn, ha] at hlu; cases (by cases hc : (fillRow w).city <;> rw [hc] at hlu <;> exact hlu : (Except.error PyError.attributeError : Except PyError Row) = .ok l)
      | num n => rw [hn] at hlu; cases (by cases ha : (fillRow w).address <;> cases hc : (fillRow w).city <;> rw [ha, hc] at hlu <;> exact hlu : (Except.error PyError.attributeError : Except PyError Row) = .ok l)
      | na => rw [hn] at hlu; cases (by cases ha : (fillRow w).address <;> cases hc : (fillRow w).city <;> rw [ha, hc] at hlu <;> exact hlu : (Except.error PyError.attributeError : Except PyError Row) = .ok l)
    · cases h

/-- Counterexample to claim C6 as stated: clean_data is not idempotent.
On the one-row table with name "a ?" the first pass removes the symbol
after the trim step, leaving the trailing-space name "a "; a second pass
trims that space, producing "a". -/
theorem clean_data_not_idempotent :
    ¬ (∀ df : List Row, (cleanData df).bind cleanData = cleanData df) := by
  intro h
  have h0 := h [⟨Cell.str ['a', ' ', '?'], Cell.str ['b'], Cell.str ['c'],
    Cell.num 1⟩]
  have h1 : (Except.ok [(⟨Cell.str ['a'], Cell.str ['b'], Cell.str ['c'],
        Cell.num 1⟩ : Row)] : Except PyError (List Row)) =
      Except.ok [(⟨Cell.str ['a', ' '], Cell.str ['b'], Cell.str ['c'],
        Cell.num 1⟩ : Row)] := h0
  injection h1 with h2
  exact absurd h2 (by decide)

/-- Claim C6 amended.  clean_data is idempotent exactly on outputs that
are already whitespace-trimmed and corporate-suffix-free: if the first
pass returns a table each of whose rows is unchanged by the trim step
and by the suffix-removal step, a second pass returns that table
unchanged.  (Unconditional idempotence fails: the symbol-removal step
runs after trimming and suffix removal, so it can expose a new trailing
space — name "a ?" — or a new " llc"/" inc"/" ltd" suffix — name
"a l!lc" — that only a second pass would clean.) -/
theorem clean_data_idempotent_on_stable_output (df out : List Row)
    (h : cleanData df = .ok out)
    (hstrip : ∀ r ∈ out, stripRow r = r)
    (hcorp : ∀ r ∈ out, corpRow r = r) :
    cleanData out = .ok out := by
  have hshape := cleanData_ok_shape h
  have hfillrow : ∀ r ∈ out, fillRow r = r := by
    intro r hr
    rcases hshape r hr with ⟨sn, sa, sc, zc, rfl, hzc⟩
    show Row.mk _ _ _ (fillCell (Cell.num 0) (stripCell zc)) = _
    rw [fillCell_notNa _ (stripCell_notNa hzc)]
    rfl
  have hlower : ∀ r ∈ out, lowerRow r = .ok r := by
    intro r hr
    rcases hshape r hr with ⟨sn, sa, sc, zc, rfl, hzc⟩
    show Except.ok (Row.mk
      (Cell.str (lowerStr ((removeCorp (pyStrip (lowerStr sn))).filter keepChar)))
      (Cell.str (lowerStr ((pyStrip (lowerStr sa)).filter keepChar)))
      (Cell.str (lowerStr ((pyStrip (lowerStr sc)).filter keepChar))) _) = _
    rw [lowerStr_fix (fun c hc => lowerChar_mem_fix
      (mem_pyStrip (mem_removeCorp (List.mem_of_mem_filter hc))))]
    rw [lowerStr_fix (fun c hc => lowerChar_mem_fix
      (mem_pyStrip (List.mem_of_mem_filter hc)))]
    rw [lowerStr_fix (fun c hc => lowerChar_mem_fix
      (mem_pyStrip (List.mem_of_mem_filter hc)))]
  have hsym : ∀ r ∈ out, symbolRow r = r := by
    intro r hr
    rcases hshape r hr with ⟨sn, sa, sc, zc, rfl, hzc⟩
    show Row.mk
      (Cell.str (((removeCorp (pyStrip (lowerStr sn))).filter keepChar).filter keepChar))
      (Cell.str (((pyStrip (lowerStr sa)).filter keepChar).filter keepChar))
      (Cell.str (((pyStrip (lowerStr sc)).filter keepChar).filter keepChar)) _ = _
    rw [filter_keep_idem, filter_keep_idem, filter_keep_idem]
  unfold cleanData cleanDataFull
  rw [map_fix hfillrow, mapE_ok_of_forall hlower]
  dsimp only
  rw [map_fix hstrip, map_fix hcorp, map_fix hsym, if_pos rfl]

/-- Witness for the amended C6 at a concrete stable table. -/
theorem clean_data_idempotent_on_stable_output_witness :
    cleanData [⟨Cell.str ['a', 'b', 'c'], Cell.str ['b'], Cell.str ['c'],
      Cell.num 1⟩] =
    .ok [⟨Cell.str ['a', 'b', 'c'], Cell.str ['b'], Cell.str ['c'],
      Cell.num 1⟩] :=
  clean_data_idempotent_on_stable_output
    [⟨Cell.str ['a', 'b', 'c'], Cell.str ['b'], Cell.str ['c'], Cell.num 1⟩]
    [⟨Cell.str ['a', 'b', 'c'], Cell.str ['b'], Cell.str ['c'], Cell.num 1⟩]
    rfl (by decide) (by decide)

/-! Claim C9: whether clean_data leaves the caller's table unchanged. -/

/-- Total version of the lowercase step, agreeing with lowerRow wherever
lowerRow succeeds; used to describe the caller-visible state. -/
def lowerRowTotal (r : Row) : Row :=
  match r.name, r.address, r.city with
  | Cell.str n, Cell.str a, Cell.str c =>
      Row.mk (Cell.str (lowerStr n)) (Cell.str (lowerStr a))
        (Cell.str (lowerStr c)) r.zip
  | _, _, _ => r

theorem lowerRow_total_agree : ∀ {u y : Row}, lowerRow u = .ok y →
    y = lowerRowTotal u := by
  intro u y
  unfold lowerRow lowerRowTotal
  cases u.name <;> cases u.address <;> cases u.city <;>
    exact fun h => by cases h <;> rfl

/-- Counterexample to claim C9 as stated: clean_data does mutate the
caller's table.  On a table whose name cell is missing, the caller's
object is left with the fillna default "not provided" written into it
(fillna runs with inplace=True on the caller's object). -/
theorem clean_data_mutates_caller :
    ¬ (∀ df : List Row, cleanCaller df = df) := by
  intro h
  have h0 := h [⟨Cell.na, Cell.str ['b'], Cell.str ['c'], Cell.num 5⟩]
  have h1 : ([⟨Cell.str notProvided, Cell.str ['b'], Cell.str ['c'],
      Cell.num 5⟩] : List Row) =
      [⟨Cell.na, Cell.str ['b'], Cell.str ['c'], Cell.num 5⟩] := h0
  exact absurd h1 (by decide)

/-- Claim C9 amended.  clean_data mutates the caller's table in place:
after a successful call the caller's object holds the input with missing
values filled and the three text columns lowercased (the in-place rename,
fillna and lowercase assignment of lines 160-174; the positional rename
also changes the caller's column names, outside this cell-level model).
The later trim, suffix-removal and symbol-removal steps operate on new
tables and never reach the caller's object. -/
theorem clean_data_caller_state_after_success (df out : List Row)
    (h : cleanData df = .ok out) :
    cleanCaller df = df.map (fun r => lowerRowTotal (fillRow r)) := by
  unfold cleanData cleanDataFull at h
  split at h
  · cases h
  · rename_i lowered hm
    split at h
    · have hcaller : cleanCaller df = lowered := by
        unfold cleanCaller cleanDataFull
        rw [hm]
        dsimp only
        split <;> rfl
      have h2 := mapE_map_of_ok (fun u y hy => lowerRow_total_agree hy) hm
      rw [hcaller, h2, List.map_map]
      rfl
    · cases h

/-- Witness for the amended C9: the caller's table after cleaning a
table with a missing name. -/
theorem clean_data_caller_state_after_success_witness :
    cleanCaller [⟨Cell.na, Cell.str ['b'], Cell.str ['c'], Cell.num 5⟩] =
      [(⟨Cell.na, Cell.str ['b'], Cell.str ['c'], Cell.num 5⟩ : Row)].map
        (fun r => lowerRowTotal (fillRow r)) :=
  clean_data_caller_state_after_success _
    [⟨Cell.str notProvided, Cell.str ['b'], Cell.str ['c'], Cell.num 5⟩] rfl

/-! Claim C7: the merge keeps one output row per input row. -/

/-- Claim C7 (confirmed).  combine_dataframes performs no cross-source
deduplication: the output has exactly the rows of the concatenated
inputs (as a permutation, sorted by name), one output row per input row,
so its length is the sum of the input lengths and a key appearing in two
sources keeps two separate rows. -/
theorem merge_concat_row_count (dfs : List (List DedupRow))
    (out : List FinalRow) (h : combineDataframes dfs = .ok out) :
    out.length = (dfs.map List.length).sum ∧
      List.Perm (out.map finalValues) dfs.flatten := by
  unfold combineDataframes at h
  split at h
  · cases h
  · cases h
    constructor
    · rw [List.length_map, (List.perm_insertionSort _ _).length_eq,
        List.length_flatten]
    · rw [List.map_map]
      have hcomp : (finalValues ∘ mkFinal) = id := rfl
      rw [hcomp, List.map_id]
      exact List.perm_insertionSort _ _

/-- Concrete rows used by the witnesses below (the ids are the hashlib
md5 hexdigests of the corresponding serialized tuples). -/
def rowA : DedupRow :=
  ⟨Cell.str ['a'], Cell.str ['b'], Cell.str ['c'], Cell.num 0, 1, true, false⟩

def rowAcme : DedupRow :=
  ⟨Cell.str "acme".toList, Cell.str "1 main st".toList,
    Cell.str "springfield".toList, Cell.str "11111".toList, 2, true, false⟩

def rowAFinal : FinalRow :=
  ⟨"042dc0683aac936a85b3a53a58d675b7".toList, Cell.str ['a'], Cell.str ['b'],
    Cell.str ['c'], Cell.num 0, 1, true, false⟩

def rowAcmeFinal : FinalRow :=
  ⟨"68944b2c31f71a3ddc429a49b9c54a85".toList, Cell.str "acme".toList,
    Cell.str "1 main st".toList, Cell.str "springfield".toList,
    Cell.str "11111".toList, 2, true, false⟩

/-- Witness for C7 at two one-row sources. -/
theorem merge_concat_row_count_witness :
    ([rowAFinal, rowAcmeFinal].length =
        ([[rowAcme], [rowA]].map List.length).sum) ∧
      List.Perm ([rowAFinal, rowAcmeFinal].map finalValues)
        ([[rowAcme], [rowA]].flatten) :=
  merge_concat_row_count [[rowAcme], [rowA]] [rowAFinal, rowAcmeFinal] rfl

/-! Claim C4: the id as a function of the row's values.  Determinism and
content-addressing hold (amended theorem below); the universally
quantified "changing any one field value changes the id" fails, because
MD5 maps the infinitely many possible field values into 2^128 digests, so
two rows differing only in one field must collide somewhere. -/

def md5StLt (st : MD5St) : Prop :=
  st.a < w32 ∧ st.b < w32 ∧ st.c < w32 ∧ st.d < w32

theorem add32_lt (a b : Nat) : add32 a b < w32 :=
  Nat.mod_lt _ (by decide)

theorem md5Chunk_lt (st : MD5St) (ch : List Nat) : md5StLt (md5Chunk st ch) :=
  ⟨add32_lt _ _, add32_lt _ _, add32_lt _ _, add32_lt _ _⟩

theorem md5Fold_lt : ∀ (cs : List (List Nat)) (st : MD5St), md5StLt st →
    md5StLt (cs.foldl md5Chunk st) := by
  intro cs
  induction cs with
  | nil => intro st h; exact h
  | cons c cs ih => intro st _; exact ih _ (md5Chunk_lt _ _)

theorem md5Core_lt (msg : List Nat) : md5StLt (md5Core msg) :=
  md5Fold_lt _ _ ⟨by decide, by decide, by decide, by decide⟩

/-- The MD5 state packaged into a finite type, for the pigeonhole
argument. -/
def md5Fin (msg : List Nat) : Fin w32 × Fin w32 × Fin w32 × Fin w32 :=
  ⟨⟨(md5Core msg).a, (md5Core_lt msg).1⟩,
   ⟨(md5Core msg).b, (md5Core_lt msg).2.1⟩,
   ⟨(md5Core msg).c, (md5Core_lt msg).2.2.1⟩,
   ⟨(md5Core msg).d, (md5Core_lt msg).2.2.2⟩⟩

/-- An infinite family of rows that differ only in the name field. -/
def aName (n : Nat) : List Char := List.replicate (n + 1) 'a'

def aRow (n : Nat) : DedupRow :=
  ⟨Cell.str (aName n), Cell.str ['b'], Cell.str ['c'], Cell.num 0, 1,
    true, false⟩

/-- Counterexample to claim C4 as stated: it is not true that changing
one field value of a row always changes the id the merger computes.  The
id is a 128-bit MD5 digest, and the map from the infinitely many name
values to digests cannot be injective, so two rows agreeing on every
field except name — with different names — receive the same id.  (The
collision is nonconstructive: no explicit pair is exhibited, only its
existence; the determinism and content-addressing parts of the claim do
hold, see the amended theorem.) -/
theorem merge_id_field_change_fails :
    ¬ (∀ d d' : DedupRow, d.address = d'.address → d.city = d'.city →
        d.zip = d'.zip → d.occurrences = d'.occurrences →
        d.file1 = d'.file1 → d.file2 = d'.file2 →
        d.name ≠ d'.name → rowId d ≠ rowId d') := by
  intro h
  obtain ⟨m, n, hmn, heq⟩ := Finite.exists_ne_map_eq_of_infinite
    (fun k => md5Fin (utf8 (rowTupleStr (aRow k))))
  have hname : (aRow m).name ≠ (aRow n).name := by
    intro hc
    apply hmn
    have h2 : aName m = aName n := by
      injection hc
    have h3 := congrArg List.length h2
    simp only [aName, List.length_replicate] at h3
    omega
  have ha : (md5Core (utf8 (rowTupleStr (aRow m)))).a =
      (md5Core (utf8 (rowTupleStr (aRow n)))).a :=
    congrArg (fun p : Fin w32 × Fin w32 × Fin w32 × Fin w32 =>
      (p.1 : Nat)) heq
  have hb : (md5Core (utf8 (rowTupleStr (aRow m)))).b =
      (md5Core (utf8 (rowTupleStr (aRow n)))).b :=
    congrArg (fun p : Fin w32 × Fin w32 × Fin w32 × Fin w32 =>
      (p.2.1 : Nat)) heq
  have hc : (md5Core (utf8 (rowTupleStr (aRow m)))).c =
      (md5Core (utf8 (rowTupleStr (aRow n)))).c :=
    congrArg (fun p : Fin w32 × Fin w32 × Fin w32 × Fin w32 =>
      (p.2.2.1 : Nat)) heq
  have hd : (md5Core (utf8 (rowTupleStr (aRow m)))).d =
      (md5Core (utf8 (rowTupleStr (aRow n)))).d :=
    congrArg (fun p : Fin w32 × Fin w32 × Fin w32 × Fin w32 =>
      (p.2.2.2 : Nat)) heq
  have hid : rowId (aRow m) = rowId (aRow n) := by
    unfold rowId md5Hex
    rw [ha, hb, hc, hd]
  exact h (aRow m) (aRow n) rfl rfl rfl rfl rfl rfl hname hid

/-- Claim C4 amended.  The id the merger assigns to a row is a
deterministic, content-addressed function of the row's non-id column
values: every output row's id equals the fixed digest function rowId
(MD5 of the serialized value tuple) applied to the row's values, so two
runs on identical values, and any two rows with identical values, get
identical ids; changing a field value changes the id unless the two
serialized tuples form an MD5 collision (such collisions exist, see the
counterexample). -/
theorem merge_id_content_addressed (dfs : List (List DedupRow))
    (out : List FinalRow) (h : combineDataframes dfs = .ok out) :
    ∀ fr ∈ out, fr.id = rowId (finalValues fr) := by
  unfold combineDataframes at h
  split at h
  · cases h
  · cases h
    intro fr hfr
    rcases List.mem_map.mp hfr with ⟨d, _, rfl⟩
    rfl

/-- Witness for the amended C4 at a concrete one-row merge. -/
theorem merge_id_content_addressed_witness :
    rowAFinal.id = rowId (finalValues rowAFinal) :=
  merge_id_content_addressed [[rowA]] [rowAFinal] rfl rowAFinal
    (List.mem_cons_self _ _)

end DeExercise
